import Mathlib

/-!
Verification of the mysh interpreter core (src/interpreter.rs).

Shallow embedding: lines and tokens are `List Char`; the `BTreeMap`s of the
Rust code become association lists with replace-on-insert semantics (key
order is irrelevant to every claim, only lookup behaviour matters); the
external process-spawning collaborator is observed through an invocation
log carried in the executor state; fallible operations return `Except`.
-/

namespace Mysh

/-- One assignment statement: `variable=value`.  (`var` stands for the Rust
field `variable`, a Lean keyword.) -/
structure Assignment where
  var : List Char
  value : List Char
  deriving DecidableEq, Repr

/-- A statement is an assignment or an external-command execution
(a list of whitespace-split tokens), as in `enum Statement`. -/
inductive Statement where
  | assignment (a : Assignment)
  | execution (args : List (List Char))
  deriving DecidableEq, Repr

/-- A function body: an ordered list of statements (`struct Function`). -/
abbrev Func := List Statement

/-- The parsed program: a map from function name to body.  The Rust code
uses `BTreeMap<String, Function>`; we model it as an association list whose
insert replaces an existing binding in place. -/
abbrev Program := List (List Char × Func)

/-- Association-list lookup, modelling `BTreeMap::get`. -/
def lookup_assoc {α : Type} (m : List (List Char × α)) (k : List Char) : Option α :=
  match m with
  | [] => none
  | (k', v) :: rest => if k' = k then some v else lookup_assoc rest k

/-- Association-list insert, modelling `BTreeMap::insert`: replaces the
binding when the key is present, otherwise appends. -/
def insert_assoc {α : Type} (m : List (List Char × α)) (k : List Char) (v : α) :
    List (List Char × α) :=
  match m with
  | [] => [(k, v)]
  | (k', v') :: rest => if k' = k then (k, v) :: rest else (k', v') :: insert_assoc rest k v

/-- Rust `str::trim`: strip leading and trailing whitespace. -/
def trim (s : List Char) : List Char :=
  ((s.dropWhile Char.isWhitespace).reverse.dropWhile Char.isWhitespace).reverse

/-- Helper for `str::split_whitespace`: accumulates the current token (reversed). -/
def split_ws_aux : List Char → List Char → List (List Char)
  | [], acc => if acc = [] then [] else [acc.reverse]
  | c :: cs, acc =>
      if c.isWhitespace then
        if acc = [] then split_ws_aux cs [] else acc.reverse :: split_ws_aux cs []
      else split_ws_aux cs (c :: acc)

/-- Rust `str::split_whitespace`: split on runs of whitespace, producing no empty
tokens. -/
def split_whitespace (s : List Char) : List (List Char) :=
  split_ws_aux s []

/-- Index (in characters) of the first occurrence of `c`, modelling
`str::find(char)` (the index is over characters; the searched characters are
ASCII, so byte and character positions coincide for the uses below). -/
def find_char (c : Char) : List Char → Option Nat
  | [] => none
  | x :: xs => if x = c then some 0 else (find_char c xs).map (· + 1)

/-- Does the line end with the literal suffix `(){`
(`trimmed.ends_with("(){")`)? -/
def ends_with_funcstart (s : List Char) : Bool :=
  match s.reverse with
  | '{' :: ')' :: '(' :: _ => true
  | _ => false

/-- Model of `name_valid` from the source: the first character exists and is not a
decimal digit, and none of `{ } ( ) =` occurs anywhere in the name. -/
def name_valid (name : List Char) : Bool :=
  let ok := match name.head? with
    | none => false
    | some c => !c.isDigit
  if !ok then false
  else !(name.any fun c => c == '{' || c == '}' || c == '(' || c == ')' || c == '=')

/-- Lexical pattern of one classified line (`enum LexicalPattern`). -/
inductive LexicalPattern where
  | funcStart (name : List Char)
  | funcEnd
  | statement (s : Statement)
  | empty
  deriving DecidableEq, Repr

/-- Model of `LexicalPattern::from_line`: classify one raw line; `none` models the
Rust `None` (unrecognized line). -/
def from_line (s : List Char) : Option LexicalPattern :=
  let trimmed := trim s
  if trimmed = [] then some .empty
  else if trimmed = ['}'] then some .funcEnd
  else if ends_with_funcstart trimmed then
    let func_name := trimmed.take (trimmed.length - 3)
    if !name_valid func_name then none
    else some (.funcStart func_name)
  else
    match find_char '=' trimmed with
    | some idx =>
        let var_name := trimmed.take idx
        if !name_valid var_name then none
        else some (.statement (.assignment ⟨var_name, trimmed.drop (idx + 1)⟩))
    | none => some (.statement (.execution (split_whitespace trimmed)))

/-- The closed set of `InvalidProgram` error messages raised by the core,
plus `noMain` from `run` (each constructor corresponds to one `bail!` site). -/
inductive Err where
  | nestedFuncStart
  | funcEndOutside
  | stmtOutside
  | unterminated
  | badLine
  | noMain
  deriving DecidableEq, Repr

/-- Parsing state (`enum ParseState`): outside any function, or constructing
a named function with the statements accumulated so far. -/
inductive ParseState where
  | constructFunc (name : List Char) (f : Func)
  | outside
  deriving DecidableEq, Repr

/-- Model of `ParseState::transform`: one step of the parse state machine.  The Rust
method mutates the program through `&mut`; here the updated program is
returned alongside the next state. -/
def transform (st : ParseState) (pattern : LexicalPattern) (program : Program) :
    Except Err (ParseState × Program) :=
  match pattern with
  | .funcStart name =>
      match st with
      | .constructFunc _ _ => .error .nestedFuncStart
      | .outside => .ok (.constructFunc name [], program)
  | .funcEnd =>
      match st with
      | .constructFunc n f => .ok (.outside, insert_assoc program n f)
      | .outside => .error .funcEndOutside
  | .statement s =>
      match st with
      | .constructFunc n f => .ok (.constructFunc n (f ++ [s]), program)
      | .outside => .error .stmtOutside
  | .empty => .ok (st, program)

/-- The loop body of `parse_to_ast`: classify each line, feed the pattern to
`transform`, and at end of input require the `Outside` state
(`ParseState::end_success`). -/
def parse_lines (st : ParseState) (program : Program) : List (List Char) → Except Err Program
  | [] =>
      match st with
      | .constructFunc _ _ => .error .unterminated
      | .outside => .ok program
  | l :: ls =>
      match from_line l with
      | none => .error .badLine
      | some p =>
          match transform st p program with
          | .error e => .error e
          | .ok (st', program') => parse_lines st' program' ls

/-- Model of `parse_to_ast`: parse a sequence of lines starting outside any function
with an empty program. -/
def parse_to_ast (lines : List (List Char)) : Except Err Program :=
  parse_lines .outside [] lines

/-- Is an `Except` result a success? -/
def is_ok {α : Type} : Except Err α → Bool
  | .ok _ => true
  | .error _ => false

/-- Did parsing succeed? -/
def parse_ok (lines : List (List Char)) : Bool :=
  is_ok (parse_to_ast lines)

/-- The executor state (`struct Environment`): the mutable variable table,
extended with a log of the invocations handed to the external
process-spawning collaborator (executable name and argument list), which is
the executor's sole externally observable effect. -/
structure Environment where
  table : List (List Char × List Char)
  invocations : List (List Char × List (List Char))
  deriving DecidableEq, Repr

/-- Model of `Environment::new()`: empty table, nothing invoked yet. -/
def Environment.new : Environment := ⟨[], []⟩

/-- Model of `Environment::expand`: a token starting with `$` is replaced by the
value of the variable named by the rest of the token, defaulting to the
empty string; any other token is returned unchanged. -/
def expand (table : List (List Char × List Char)) (arg : List Char) : List Char :=
  match arg with
  | '$' :: rest => (lookup_assoc table rest).getD []
  | _ => arg

/-- Model of `Environment::exec_assignment`: overwrite the variable if present, else
insert it (exactly `insert_assoc` on the table). -/
def exec_assignment (env : Environment) (a : Assignment) : Environment :=
  { env with table := insert_assoc env.table a.var a.value }

/-- Model of `Environment::exec_execution`: expand every token; if the result is
non-empty, invoke the external collaborator with the first element as
executable and the rest as arguments. -/
def exec_execution (env : Environment) (args : List (List Char)) : Environment :=
  let cmdline := args.map (expand env.table)
  match cmdline with
  | [] => env
  | exec :: argv => { env with invocations := env.invocations ++ [(exec, argv)] }

/-- Model of `Environment::exec_statement`: dispatch on the statement kind. -/
def exec_statement (env : Environment) (s : Statement) : Environment :=
  match s with
  | .assignment a => exec_assignment env a
  | .execution args => exec_execution env args

/-- Model of `Environment::exec_function`: run the statements in order. -/
def exec_function (env : Environment) : List Statement → Environment
  | [] => env
  | s :: rest => exec_function (exec_statement env s) rest

/-- Model of `run`: parse, look up `main`, then execute it in a fresh environment.
The result records whether the run failed and which invocations reached the
external collaborator; all errors are raised before anything executes, so
the log is empty in every error case, exactly as in the source where
`exec_function` is only reached after a successful parse and lookup. -/
def run (lines : List (List Char)) : Except Err Unit × List (List Char × List (List Char)) :=
  match parse_to_ast lines with
  | .error e => (.error e, [])
  | .ok program =>
      match lookup_assoc program ['m', 'a', 'i', 'n'] with
      | none => (.error .noMain, [])
      | some main_func => (.ok (), (exec_function Environment.new main_func).invocations)

/-- Helper for `split_lines`, splitting at every newline character. -/
def split_lines_aux : List Char → List Char → List (List Char)
  | [], acc => [acc.reverse]
  | '\n' :: cs, acc => acc.reverse :: split_lines_aux cs []
  | c :: cs, acc => split_lines_aux cs (c :: acc)

/-- The line source (`BufRead::lines`, an external collaborator): split the
text at newlines; a trailing newline produces no final empty line and empty
input produces no lines. -/
def split_lines (s : List Char) : List (List Char) :=
  if s = [] then []
  else if s.getLast? = some '\n' then split_lines_aux s.dropLast []
  else split_lines_aux s []

/-- Parse a program given as one text, as the spec's examples present it. -/
def parse_text (s : String) : Except Err Program :=
  parse_to_ast (split_lines s.data)

/-- Run a program given as one text. -/
def run_text (s : String) : Except Err Unit × List (List Char × List (List Char)) :=
  run (split_lines s.data)

/- ### Helper lemmas shared by the claims -/

theorem lookup_insert_assoc {α : Type} (m : List (List Char × α)) (k : List Char) (v : α) :
    lookup_assoc (insert_assoc m k v) k = some v := by
  induction m with
  | nil => simp [insert_assoc, lookup_assoc]
  | cons p rest ih =>
    obtain ⟨k', v'⟩ := p
    by_cases h : k' = k
    · simp [insert_assoc, lookup_assoc, h]
    · simp [insert_assoc, lookup_assoc, h, ih]

theorem all_insert_assoc {α : Type} (q : List Char × α → Bool)
    (m : List (List Char × α)) (k : List Char) (v : α)
    (hm : m.all q = true) (hv : q (k, v) = true) :
    (insert_assoc m k v).all q = true := by
  induction m with
  | nil => simp [insert_assoc, hv]
  | cons p rest ih =>
    obtain ⟨k', v'⟩ := p
    simp only [List.all_cons, Bool.and_eq_true] at hm
    by_cases h : k' = k
    · simp [insert_assoc, h, hv, hm.2]
    · simp [insert_assoc, h, hm.1, ih hm.2]

theorem all_lookup_assoc {α : Type} (q : List Char × α → Bool)
    (m : List (List Char × α)) (k : List Char) (v : α)
    (hm : m.all q = true) (hl : lookup_assoc m k = some v) :
    q (k, v) = true := by
  induction m with
  | nil => simp [lookup_assoc] at hl
  | cons p rest ih =>
    obtain ⟨k', v'⟩ := p
    simp only [List.all_cons, Bool.and_eq_true] at hm
    by_cases h : k' = k
    · simp only [lookup_assoc, if_pos h] at hl
      subst h
      obtain rfl := Option.some.inj hl
      exact hm.1
    · simp only [lookup_assoc, if_neg h] at hl
      exact ih hm.2 hl

/-- Claim C1: a token beginning with `$` expands to the value bound to the rest of
the token in the environment table, or to the empty string when that
variable is unbound; any other token expands to itself.  (`expand` is a pure
function of the table in this embedding, so the environment is left
unmodified by construction.) -/
theorem expand_spec (table : List (List Char × List Char)) (arg : List Char) :
    (∀ rest, arg = '$' :: rest →
      ((∀ v, lookup_assoc table rest = some v → expand table arg = v) ∧
       (lookup_assoc table rest = none → expand table arg = []))) ∧
    (arg.head? ≠ some '$' → expand table arg = arg) := by
  constructor
  · rintro rest rfl
    constructor
    · intro v hv
      simp [expand, hv]
    · intro hv
      simp [expand, hv]
  · intro h
    match arg with
    | [] => rfl
    | c :: cs =>
      simp only [List.head?, ne_eq, Option.some.injEq] at h
      unfold expand
      split
      · rename_i heq
        obtain ⟨rfl, -⟩ := List.cons.inj heq
        exact absurd rfl h
      · rfl

/-- Witness for C1: evaluate `expand` on a bound variable, an unbound one, and a
plain token. -/
theorem expand_spec_witness :
    expand [(['x'], ['1'])] ['$', 'x'] = ['1'] ∧
    expand [(['x'], ['1'])] ['$', 'y'] = [] ∧
    expand [(['x'], ['1'])] ['h', 'i'] = ['h', 'i'] :=
  ⟨((expand_spec [(['x'], ['1'])] ['$', 'x']).1 ['x'] rfl).1 ['1'] rfl,
   ((expand_spec [(['x'], ['1'])] ['$', 'y']).1 ['y'] rfl).2 rfl,
   (expand_spec [(['x'], ['1'])] ['h', 'i']).2 (by decide)⟩

/-- Claim C5: `name_valid s` is true exactly when `s` is non-empty, its first
character is not a decimal digit, and it contains none of
`{`, `}`, `(`, `)`, `=`; there is no length limit and no ASCII
restriction. -/
theorem name_valid_iff (s : List Char) :
    name_valid s = true ↔
      (s ≠ [] ∧ (∀ c, s.head? = some c → c.isDigit = false) ∧
       ∀ c ∈ s, ¬(c = '{' ∨ c = '}' ∨ c = '(' ∨ c = ')' ∨ c = '=')) := by
  cases s with
  | nil => simp [name_valid]
  | cons c cs =>
    by_cases hd : c.isDigit
    · simp [name_valid, hd]
    · simp only [name_valid, List.head?, Bool.not_eq_true', hd]
      simp [List.any_eq_true, not_or, hd]
      constructor
      · intro h
        refine ⟨by tauto, fun a ha => ?_⟩
        have := h.2 a ha
        tauto
      · intro h
        refine ⟨by tauto, fun a ha => ?_⟩
        have := h.2 a ha
        tauto

/-- Witness for C5: `hello_123` satisfies the three conditions, hence is a
valid name. -/
theorem name_valid_iff_witness : name_valid "hello_123".data = true :=
  (name_valid_iff "hello_123".data).mpr (by decide)

/-- Claim C9: an `Execution` statement with exactly one token still invokes the
external collaborator, with the expanded lone token as executable and an
empty argument list. -/
theorem single_token_execution (env : Environment) (t : List Char) :
    exec_execution env [t] =
      { env with invocations := env.invocations ++ [(expand env.table t, [])] } := rfl

/-- Claim C3: execution is sequential and single-pass (running a statement list is
running its head and then the rest from the resulting environment, so every
assignment is visible to all later substitutions), and running
`main(){ x=hello; echo $x }` invokes the collaborator exactly once, with
executable `echo` and the single argument `hello`. -/
theorem sequential_execution :
    (∀ (env : Environment) (s : Statement) (rest : List Statement),
        exec_function env (s :: rest) = exec_function (exec_statement env s) rest) ∧
    run_text "main()\x7b\nx=hello\necho $x\n\x7d" =
      (.ok (), [("echo".data, ["hello".data])]) :=
  ⟨fun _ _ _ => rfl, rfl⟩

/-- Claim C8: committing a finished function never fails, even when the name is
already bound — the insert silently replaces the earlier binding
(last-write-wins, no duplicate-definition error) — and parsing the spec's
duplicate-`main` example yields a program whose `main` carries only the
second body, `x=2`. -/
theorem last_definition_wins :
    (∀ (n : List Char) (f : Func) (program : Program),
        transform (.constructFunc n f) .funcEnd program =
          .ok (.outside, insert_assoc program n f)) ∧
    (∀ (program : Program) (n : List Char) (f : Func),
        lookup_assoc (insert_assoc program n f) n = some f) ∧
    (parse_text "main()\x7b\nx=1\n\x7d\nmain()\x7b\nx=2\n\x7d").toOption.bind
        (fun p => lookup_assoc p ['m', 'a', 'i', 'n']) =
      some [Statement.assignment ⟨['x'], ['2']⟩] :=
  ⟨fun _ _ _ => rfl, fun program n f => lookup_insert_assoc program n f, rfl⟩

/-- Does the parse state carry a function under construction? -/
def in_fn : ParseState → Bool
  | .constructFunc _ _ => true
  | .outside => false

/-- Modelled from the spec (refinement side of C2): the scan succeeds unless,
before the input is exhausted, a line is unrecognized by the classifier, a
`FuncStart` arrives while constructing a function, a `FuncEnd` or
`Statement` arrives while outside, or the input ends while still
constructing a function; `Empty` patterns change nothing. -/
def spec_scan (inFn : Bool) : List (List Char) → Bool
  | [] => !inFn
  | l :: ls =>
      match from_line l with
      | none => false
      | some .empty => spec_scan inFn ls
      | some (.funcStart _) => if inFn then false else spec_scan true ls
      | some .funcEnd => if inFn then spec_scan false ls else false
      | some (.statement _) => if inFn then spec_scan true ls else false

theorem is_ok_error_eq {α : Type} (e : Err) : is_ok (α := α) (.error e) = false := rfl

theorem is_ok_ok_eq {α : Type} (a : α) : is_ok (.ok a) = true := rfl

theorem parse_lines_ok_eq_spec_scan (lines : List (List Char)) :
    ∀ (st : ParseState) (program : Program),
      is_ok (parse_lines st program lines) = spec_scan (in_fn st) lines := by
  induction lines with
  | nil =>
    intro st program
    cases st <;>
      simp [parse_lines, spec_scan, in_fn, is_ok_error_eq, is_ok_ok_eq]
  | cons l ls ih =>
    intro st program
    cases hfl : from_line l with
    | none => simp [parse_lines, spec_scan, hfl, is_ok_error_eq]
    | some p =>
      cases p with
      | funcStart n =>
        cases st <;>
          simp [parse_lines, spec_scan, hfl, transform, in_fn, is_ok_error_eq, ih]
      | funcEnd =>
        cases st <;>
          simp [parse_lines, spec_scan, hfl, transform, in_fn, is_ok_error_eq, ih]
      | statement s =>
        cases st <;>
          simp [parse_lines, spec_scan, hfl, transform, in_fn, is_ok_error_eq, ih]
      | empty =>
        cases st <;>
          simp [parse_lines, spec_scan, hfl, transform, in_fn, is_ok_error_eq, ih]

/-- Claim C2: parsing succeeds exactly when the scan described by the spec does —
it fails if and only if some line is unrecognized, a `FuncStart` arrives
while constructing, a `FuncEnd` or `Statement` arrives while outside, or the
input ends mid-function — and `Empty` patterns never change the state. -/
theorem parse_fails_iff (lines : List (List Char)) :
    (parse_ok lines = spec_scan false lines) ∧
    (∀ (st : ParseState) (program : Program),
        transform st .empty program = .ok (st, program)) := by
  refine ⟨?_, fun _ _ => rfl⟩
  exact parse_lines_ok_eq_spec_scan lines .outside []

theorem parse_lines_ne_noMain (lines : List (List Char)) :
    ∀ (st : ParseState) (program : Program),
      parse_lines st program lines ≠ .error .noMain := by
  induction lines with
  | nil =>
    intro st program
    cases st <;> simp [parse_lines]
  | cons l ls ih =>
    intro st program
    cases hfl : from_line l with
    | none => simp [parse_lines, hfl]
    | some p =>
      cases p <;> cases st <;>
        simp [parse_lines, hfl, transform, ih]

/-- Claim C4: `run` fails with the no-entry-function error exactly when parsing
succeeded but the program has no `main` binding; and whenever `run` returns
any error at all, no statement has executed and nothing has been handed to
the external collaborator (the invocation log is empty) — parse-then-run is
atomic. -/
theorem run_no_main_atomic (lines : List (List Char)) :
    ((run lines).1 = .error .noMain ↔
      ∃ program, parse_to_ast lines = .ok program ∧
        lookup_assoc program ['m', 'a', 'i', 'n'] = none) ∧
    (∀ e : Err, (run lines).1 = .error e → (run lines).2 = []) := by
  cases hp : parse_to_ast lines with
  | error e =>
    constructor
    · constructor
      · intro h
        simp only [run, hp] at h
        obtain rfl := Except.error.inj h
        exact absurd hp (parse_lines_ne_noMain lines .outside [])
      · rintro ⟨program, hprog, -⟩
        exact absurd hprog (by simp)
    · intro e' _
      simp [run, hp]
  | ok program =>
    cases hm : lookup_assoc program ['m', 'a', 'i', 'n'] with
    | none =>
      refine ⟨⟨fun _ => ⟨program, rfl, hm⟩, fun _ => ?_⟩, fun e' _ => ?_⟩
      · simp [run, hp, hm]
      · simp [run, hp, hm]
    | some f =>
      refine ⟨⟨fun h => ?_, fun h => ?_⟩, fun e' he => ?_⟩
      · simp [run, hp, hm] at h
      · obtain ⟨program', hprog, hnone⟩ := h
        obtain rfl := (Except.ok.inj hprog)
        rw [hm] at hnone
        exact absurd hnone (by simp)
      · simp [run, hp, hm] at he

/-- Witness for C4: the program text `x=1` fails to parse (statement outside any
function) and the invocation log of its run is empty. -/
theorem run_no_main_atomic_witness :
    (run (split_lines "x=1\n".data)).2 = [] :=
  (run_no_main_atomic (split_lines "x=1\n".data)).2 .stmtOutside rfl

theorem find_char_first (c : Char) (s : List Char) (i : Nat)
    (h : find_char c s = some i) :
    s.get? i = some c ∧ ∀ j, j < i → s.get? j ≠ some c := by
  induction s generalizing i with
  | nil => simp [find_char] at h
  | cons x xs ih =>
    by_cases hx : x = c
    · simp only [find_char, if_pos hx] at h
      obtain rfl := Option.some.inj h
      simp [hx]
    · simp only [find_char, if_neg hx] at h
      obtain ⟨i', hi', rfl⟩ := Option.map_eq_some'.mp h
      obtain ⟨h1, h2⟩ := ih i' hi'
      refine ⟨by simpa using h1, ?_⟩
      intro j hj
      cases j with
      | zero => simpa using hx
      | succ j' =>
        have : j' < i' := Nat.lt_of_succ_lt_succ hj
        simpa using h2 j' this

/-- Claim C6: on a line whose trimmed text is non-empty, is not `}`, does not end
with `(){`, and contains `=`, the classifier splits at the first `=` only;
when the left part is a valid identifier the line is an assignment whose
value is the verbatim remainder after that first `=` (further `=` characters
included, no trimming), and otherwise the line is unrecognized. -/
theorem assignment_classification (line : List Char) (idx : Nat)
    (h1 : trim line ≠ [])
    (h2 : trim line ≠ ['}'])
    (h3 : ends_with_funcstart (trim line) = false)
    (h4 : find_char '=' (trim line) = some idx) :
    ((trim line).get? idx = some '=' ∧
      ∀ j, j < idx → (trim line).get? j ≠ some '=') ∧
    (name_valid ((trim line).take idx) = true →
      from_line line =
        some (.statement (.assignment
          ⟨(trim line).take idx, (trim line).drop (idx + 1)⟩))) ∧
    (name_valid ((trim line).take idx) = false → from_line line = none) := by
  refine ⟨find_char_first '=' (trim line) idx h4, ?_, ?_⟩
  · intro hv
    simp [from_line, h1, h2, h3, h4, hv]
  · intro hv
    simp [from_line, h1, h2, h3, h4, hv]

/-- Witness for C6: `x=a=b` classifies as the assignment of the verbatim value
`a=b` to `x`, split at the first `=`. -/
theorem assignment_classification_witness :
    from_line "x=a=b".data =
      some (.statement (.assignment ⟨['x'], ['a', '=', 'b']⟩)) :=
  (assignment_classification "x=a=b".data 1 (by decide) (by decide)
      (by decide) (by decide)).2.1 (by decide)

/-- Claim C7: a line whose trimmed text ends with `(){` but whose prefix before
that suffix is not a valid identifier (such as the bare line `(){`) is
unrecognized — it never falls through to the assignment or execution rules,
even when it contains `=` — and parsing any input that reaches such a line
aborts with the malformed-line error. -/
theorem funcstart_invalid_name (line : List Char)
    (h1 : ends_with_funcstart (trim line) = true)
    (h2 : name_valid ((trim line).take ((trim line).length - 3)) = false) :
    from_line line = none ∧
    ∀ (st : ParseState) (program : Program) (rest : List (List Char)),
      parse_lines st program (line :: rest) = .error .badLine := by
  have hne : trim line ≠ [] := by
    intro h
    rw [h] at h1
    exact absurd h1 (by decide)
  have hnb : trim line ≠ ['}'] := by
    intro h
    rw [h] at h1
    exact absurd h1 (by decide)
  have hfl : from_line line = none := by
    simp [from_line, hne, hnb, h1, h2]
  exact ⟨hfl, fun st program rest => by simp [parse_lines, hfl]⟩

/-- Witness for C7: the bare line `(){` (which contains no valid identifier
before the suffix) is unrecognized, and parsing aborts on it with the
malformed-line error. -/
theorem funcstart_invalid_name_witness :
    parse_lines .outside [] ["()\x7b".data] = .error .badLine :=
  (funcstart_invalid_name "()\x7b".data (by decide) (by decide)).2 .outside [] []

/-- Every assignment statement carries a valid identifier as its target. -/
def stmt_ok : Statement → Bool
  | .assignment a => name_valid a.var
  | .execution _ => true

/-- All statements of a function body satisfy `stmt_ok`. -/
def func_ok (f : Func) : Bool := f.all stmt_ok

/-- The function under construction (if any) satisfies `func_ok`. -/
def state_ok : ParseState → Bool
  | .constructFunc _ f => func_ok f
  | .outside => true

/-- All function bodies of a program satisfy `func_ok`. -/
def prog_ok (program : Program) : Bool := program.all fun p => func_ok p.2

/-- All keys of a variable table are valid identifiers. -/
def table_ok (table : List (List Char × List Char)) : Bool :=
  table.all fun p => name_valid p.1

theorem from_line_statement_ok (l : List Char) (s : Statement)
    (h : from_line l = some (.statement s)) : stmt_ok s = true := by
  simp only [from_line] at h
  repeat' split at h
  all_goals simp_all [stmt_ok]
  all_goals try subst s
  all_goals simp_all [stmt_ok]

theorem parse_lines_prog_ok (lines : List (List Char)) :
    ∀ (st : ParseState) (program program' : Program),
      state_ok st = true → prog_ok program = true →
      parse_lines st program lines = .ok program' → prog_ok program' = true := by
  induction lines with
  | nil =>
    intro st program program' _ hp h
    cases st with
    | constructFunc n f => simp [parse_lines] at h
    | outside =>
      obtain rfl : program = program' := by simpa [parse_lines] using h
      exact hp
  | cons l ls ih =>
    intro st program program' hst hp h
    cases hfl : from_line l with
    | none => simp [parse_lines, hfl] at h
    | some p =>
      cases p with
      | funcStart n =>
        cases st with
        | constructFunc m f => simp [parse_lines, hfl, transform] at h
        | outside =>
          simp only [parse_lines, hfl, transform] at h
          exact ih _ _ _ (by simp [state_ok, func_ok]) hp h
      | funcEnd =>
        cases st with
        | constructFunc n f =>
          simp only [parse_lines, hfl, transform] at h
          refine ih _ _ _ (by simp [state_ok]) ?_ h
          exact all_insert_assoc _ program n f hp (by simpa [state_ok] using hst)
        | outside => simp [parse_lines, hfl, transform] at h
      | statement s =>
        cases st with
        | constructFunc n f =>
          simp only [parse_lines, hfl, transform] at h
          refine ih _ _ _ ?_ hp h
          have hs := from_line_statement_ok l s hfl
          simp only [state_ok, func_ok] at hst ⊢
          simp [List.all_append, hst, hs]
        | outside => simp [parse_lines, hfl, transform] at h
      | empty =>
        simp only [parse_lines, hfl, transform] at h
        exact ih _ _ _ hst hp h

theorem exec_table_ok (stmts : List Statement) :
    ∀ (env : Environment), stmts.all stmt_ok = true → table_ok env.table = true →
      table_ok (exec_function env stmts).table = true := by
  induction stmts with
  | nil =>
    intro env _ ht
    simpa [exec_function] using ht
  | cons s rest ih =>
    intro env hall ht
    simp only [List.all_cons, Bool.and_eq_true] at hall
    rw [exec_function]
    refine ih _ hall.2 ?_
    cases s with
    | assignment a =>
      simp only [exec_statement, exec_assignment]
      exact all_insert_assoc _ env.table a.var a.value ht (by simpa [stmt_ok] using hall.1)
    | execution args =>
      simp only [exec_statement, exec_execution]
      split <;> simpa using ht

theorem table_ok_lookup_none (table : List (List Char × List Char)) (k : List Char)
    (ht : table_ok table = true) (hk : name_valid k = false) :
    lookup_assoc table k = none := by
  induction table with
  | nil => rfl
  | cons p rest ih =>
    obtain ⟨k', v⟩ := p
    simp only [table_ok, List.all_cons, Bool.and_eq_true] at ht
    by_cases h : k' = k
    · subst h
      rw [ht.1] at hk
      exact absurd hk (by simp)
    · simp only [lookup_assoc, if_neg h]
      exact ih ht.2

/-- Claim C10: in every environment reachable by running a function of a
successfully parsed program (the table after any prefix of the body,
starting fresh), every key of the variable table is a valid identifier,
because the classifier validates names before ever producing an assignment;
consequently any token whose text after `$` is not a valid identifier
(`$`, `$1x`, …) expands to the empty string. -/
theorem env_keys_valid (lines : List (List Char)) (program : Program)
    (hp : parse_to_ast lines = .ok program)
    (n : List Char) (f : Func) (hf : lookup_assoc program n = some f)
    (pre suf : List Statement) (hsplit : f = pre ++ suf) :
    table_ok (exec_function Environment.new pre).table = true ∧
    ∀ k, name_valid k = false →
      expand (exec_function Environment.new pre).table ('$' :: k) = [] := by
  have hprog : prog_ok program = true :=
    parse_lines_prog_ok lines .outside [] program rfl rfl hp
  have hfok : func_ok f = true := by
    simpa using all_lookup_assoc (fun p => func_ok p.2) program n f hprog hf
  have hpre : pre.all stmt_ok = true := by
    subst hsplit
    simp only [func_ok, List.all_append, Bool.and_eq_true] at hfok
    exact hfok.1
  have ht : table_ok (exec_function Environment.new pre).table = true :=
    exec_table_ok pre Environment.new hpre rfl
  refine ⟨ht, fun k hk => ?_⟩
  have hnone := table_ok_lookup_none _ k ht hk
  simp [expand, hnone]

/-- Witness for C10: after running `x=1` from the parsed program
`main(){ x=1 }`, the invalid-identifier token `$1x` expands to the empty
string. -/
theorem env_keys_valid_witness :
    expand (exec_function Environment.new
        [Statement.assignment ⟨['x'], ['1']⟩]).table ['$', '1', 'x'] = [] :=
  (env_keys_valid (split_lines "main()\x7b\nx=1\n\x7d".data)
      [(['m', 'a', 'i', 'n'], [Statement.assignment ⟨['x'], ['1']⟩])] rfl
      ['m', 'a', 'i', 'n'] [Statement.assignment ⟨['x'], ['1']⟩] rfl
      [Statement.assignment ⟨['x'], ['1']⟩] [] rfl).2 ['1', 'x'] rfl

end Mysh
